import Mathlib

/-
Shallow embedding of the hclencoder package (hclencoder.go, escape.go and
nodes.go) together with proofs about the claims of its specification.

Modelling conventions, used throughout:
- Go values reached through the reflect package are modelled by the inductive
  GoValue; reflect type information that the encoder consults (element types
  of slices and maps, pointer element types) is carried by GoType.
- Machine integers are modelled by Int and Nat; none of the encoder paths
  proved about here performs arithmetic on them.
- Fallible Go code returning (T, error) is modelled with Except EncErr; a Go
  runtime panic (which aborts the process rather than returning an error
  value) is modelled by the separate constructor EncErr.goPanic so that it
  stays distinguishable from ordinary returned errors.
- External collaborators (hclwrite, hclsyntax, cty, the unicode tables) are
  modelled at their interface, as the specification prescribes: token
  sequences produced by hclwrite.TokensForValue and hclsyntax.LexExpression
  are kept abstract as single carrier tokens, and block bodies are kept as
  structured item lists rather than rendered bytes, since the final
  pretty-printer is out of scope.
-/

/-- The reflect.Kind values that the encoder can meet. -/
inductive GoKind where
  | kBool | kInt | kUint | kFloat64 | kString
  | kSlice | kMap | kStruct | kPtr | kInterface | kChan | kInvalid
deriving DecidableEq, Repr

/-- The String method of reflect.Kind, for the kinds above. -/
def kindName : GoKind → String
  | .kBool => "bool"
  | .kInt => "int"
  | .kUint => "uint"
  | .kFloat64 => "float64"
  | .kString => "string"
  | .kSlice => "slice"
  | .kMap => "map"
  | .kStruct => "struct"
  | .kPtr => "ptr"
  | .kInterface => "interface"
  | .kChan => "chan"
  | .kInvalid => "invalid"

/-- Go types as far as the encoder inspects them: it asks for the kind of a
type, for the element type of a slice (encodeList) and for the key kind of a
map (tokenize). The integer widths are collapsed to one int and one uint
constructor; no claim distinguishes widths. -/
inductive GoType where
  | boolT | intT | uintT | floatT | stringT | ifaceT | chanT
  | ptrT (elem : GoType)
  | sliceT (elem : GoType)
  | mapT (key : GoType) (elem : GoType)
  | structT (tname : String)
deriving DecidableEq, Repr

/-- reflect.Type.Kind for GoType. -/
def typeKind : GoType → GoKind
  | .boolT => .kBool
  | .intT => .kInt
  | .uintT => .kUint
  | .floatT => .kFloat64
  | .stringT => .kString
  | .ifaceT => .kInterface
  | .chanT => .kChan
  | .ptrT _ => .kPtr
  | .sliceT _ => .kSlice
  | .mapT _ _ => .kMap
  | .structT _ => .kStruct

/-- reflect.Type.String for GoType, used by the placeholder string that
reflect.Value.String produces for non-string values. Exact for the primitive
kinds, slices, maps and pointers used in the proofs below. -/
def typeString : GoType → String
  | .boolT => "bool"
  | .intT => "int"
  | .uintT => "uint"
  | .floatT => "float64"
  | .stringT => "string"
  | .ifaceT => "interface \x7b\x7d"
  | .chanT => "chan"
  | .ptrT t => "*" ++ typeString t
  | .sliceT t => "[]" ++ typeString t
  | .mapT k v => "map[" ++ typeString k ++ "]" ++ typeString v
  | .structT n => n

/-- One struct field as seen by reflect: its name, whether it is anonymous
(embedded), the name of its type (used for the default name of an anonymous
field) and the raw contents of the two struct tags that the encoder reads,
f.Tag.Get(HCLTagName) and f.Tag.Get(HCLETagName). -/
structure StructField where
  name : String
  anonymous : Bool := false
  typeName : String := ""
  hclTag : String := ""
  hcleTag : String := ""
deriving DecidableEq, Repr

/-- Go values as the encoder walks them. Slices and maps carry their nil flag
(a nil slice differs from an empty one) and the type information the encoder
asks reflect for. Map entries are listed in an arbitrary iteration order with
their keys already rendered as strings; for a map whose key type is not a
string kind the tokenizer rejects the value before ever reading an entry, so
this representation loses nothing. chanV stands for a value of one of the
kinds the encoder does not support (Go channels in the repository tests);
invalidV is the invalid reflect.Value (reflect.ValueOf(nil)). -/
inductive GoValue where
  | boolV (b : Bool)
  | intV (n : Int)
  | uintV (n : Nat)
  | floatV (lit : String)
  | strV (s : String)
  | sliceV (elemT : GoType) (isNil : Bool) (elems : List GoValue)
  | mapV (keyT : GoType) (elemT : GoType) (isNil : Bool)
      (entries : List (String × GoValue))
  | structV (tname : String) (fields : List (StructField × GoValue))
  | ptrNil (elemT : GoType)
  | ptrSome (elemT : GoType) (v : GoValue)
  | ifaceNil
  | ifaceSome (v : GoValue)
  | chanV
  | invalidV

/-- reflect.Value.Kind for GoValue. -/
def goKindOf : GoValue → GoKind
  | .boolV _ => .kBool
  | .intV _ => .kInt
  | .uintV _ => .kUint
  | .floatV _ => .kFloat64
  | .strV _ => .kString
  | .sliceV _ _ _ => .kSlice
  | .mapV _ _ _ _ => .kMap
  | .structV _ _ => .kStruct
  | .ptrNil _ => .kPtr
  | .ptrSome _ _ => .kPtr
  | .ifaceNil => .kInterface
  | .ifaceSome _ => .kInterface
  | .chanV => .kChan
  | .invalidV => .kInvalid

/-- reflect.Type.String for the type of a value, used by goString below. -/
def valTypeString : GoValue → String
  | .boolV _ => "bool"
  | .intV _ => "int"
  | .uintV _ => "uint"
  | .floatV _ => "float64"
  | .strV _ => "string"
  | .sliceV t _ _ => "[]" ++ typeString t
  | .mapV k v _ _ => "map[" ++ typeString k ++ "]" ++ typeString v
  | .structV n _ => n
  | .ptrNil t => "*" ++ typeString t
  | .ptrSome t _ => "*" ++ typeString t
  | .ifaceNil => "interface \x7b\x7d"
  | .ifaceSome _ => "interface \x7b\x7d"
  | .chanV => "chan"
  | .invalidV => "invalid"

/-- reflect.Value.String: the string itself for a value of string kind, and
the placeholder of the form <T Value> for every other kind (the documented
behaviour of the reflect package: String does not panic on other kinds). -/
def goString : GoValue → String
  | .strV s => s
  | .invalidV => "<invalid Value>"
  | v => "<" ++ valTypeString v ++ " Value>"

/-- Errors of the encoder. goError models an error value returned through the
ordinary (T, error) channel; goPanic models a Go runtime or explicit panic,
which never surfaces as an error value in the real program. -/
inductive EncErr where
  | goError (msg : String)
  | goPanic (msg : String)
deriving DecidableEq, Repr

-- Constants of nodes.go (the struct tag vocabulary).

/-- HCLTagName is the struct field tag used by the HCL decoder. -/
def HCLTagName : String := "hcl"

/-- KeyTag marks a field whose value becomes part of the parent block key. -/
def KeyTag : String := "key"

/-- SquashTag lifts the fields of the value into the parent block scope. -/
def SquashTag : String := "squash"

/-- Blocks marks a slice to be treated as repeated blocks rather than a list. -/
def Blocks : String := "blocks"

/-- Expression marks a field that should not be quoted. -/
def Expression : String := "expr"

/-- UnusedKeysTag flags a decoder debugging field that is never encoded. -/
def UnusedKeysTag : String := "unusedKeys"

/-- DecodedFieldsTag flags a decoder debugging field that is never encoded. -/
def DecodedFieldsTag : String := "decodedFields"

/-- HCLETagName is the struct field tag used by this package. -/
def HCLETagName : String := "hcle"

/-- OmitTag omits the field from encoding. -/
def OmitTag : String := "omit"

/-- OmitEmptyTag omits the field when it holds its zero value. -/
def OmitEmptyTag : String := "omitempty"

/-- The fieldMeta record of nodes.go, filled by extractFieldMeta. -/
structure fieldMeta where
  anonymous : Bool := false
  name : String := ""
  key : Bool := false
  squash : Bool := false
  repeatBlock : Bool := false
  expression : Bool := false
  unusedKeys : Bool := false
  decodedFields : Bool := false
  omit' : Bool := false
  omitEmpty : Bool := false
deriving DecidableEq, Repr

/-- strings.Split(s, sep) for a one-character separator, on the character
list of the string: splitting never yields the empty list, and splitting the
empty string yields one empty piece, exactly as in Go. Defined by structural
recursion (rather than through String.splitOn) so that it evaluates inside
the kernel. -/
def splitOnChar (sep : Char) : List Char → List (List Char)
  | [] => [[]]
  | c :: rest =>
    match splitOnChar sep rest with
    | [] => if c = sep then [[], []] else [[c]]
    | h :: t => if c = sep then [] :: h :: t else (c :: h) :: t

/-- strings.Split(s, ",") as the encoder uses it on tag strings. -/
def stringsSplit (s : String) : List String :=
  (splitOnChar ',' s.data).map (fun l => String.mk l)

/-- The switch of extractFieldMeta over the role flags that follow the name
token of the hcl tag. Unrecognized tokens are ignored. -/
def applyTagFlags : List String → fieldMeta → fieldMeta
  | [], m => m
  | t :: rest, m =>
    let m :=
      if t = KeyTag then { m with key := true }
      else if t = SquashTag then { m with squash := true }
      else if t = DecodedFieldsTag then { m with decodedFields := true }
      else if t = UnusedKeysTag then { m with unusedKeys := true }
      else if t = Blocks then { m with repeatBlock := true }
      else if t = Expression then { m with expression := true }
      else m
    applyTagFlags rest m

/-- The loop of extractFieldMeta over all tokens of the hcle tag. -/
def applyHcleFlags : List String → fieldMeta → fieldMeta
  | [], m => m
  | t :: rest, m =>
    let m :=
      if t = OmitTag then { m with omit' := true }
      else if t = OmitEmptyTag then { m with omitEmpty := true }
      else m
    applyHcleFlags rest m

/-- extractFieldMeta of nodes.go: pulls the field name (the type name for an
anonymous field), lets a non-empty first hcl tag token override it, then
applies the role flags of the remaining hcl tokens and the omit flags of the
hcle tokens. -/
def extractFieldMeta (f : StructField) : fieldMeta :=
  let m : fieldMeta :=
    if f.anonymous then { anonymous := true, name := f.typeName }
    else { name := f.name }
  let m :=
    match stringsSplit f.hclTag with
    | [] => m
    | t0 :: rest =>
      let m := if t0 ≠ "" then { m with name := t0 } else m
      applyTagFlags rest m
  applyHcleFlags (stringsSplit f.hcleTag) m

mutual
/-- reflect.DeepEqual of a value with the zero value of its type, the test
that the OmitEmptyTag performs: false for a non-nil pointer or slice or map
even when what it reaches is empty, fieldwise for structs. The zero test for
the float rendering compares with the literal of 0; no claim exercises it.
The field omit' of fieldMeta models the Go field named omit, which is a
reserved word here. -/
def goIsZero : GoValue → Bool
  | .boolV b => b == false
  | .intV n => n == 0
  | .uintV n => n == 0
  | .floatV lit => lit == "0"
  | .strV s => s == ""
  | .sliceV _ isNil _ => isNil
  | .mapV _ _ isNil _ => isNil
  | .structV _ fs => goFieldsZero fs
  | .ptrNil _ => true
  | .ptrSome _ _ => false
  | .ifaceNil => true
  | .ifaceSome _ => false
  | .chanV => true
  | .invalidV => true

def goFieldsZero : List (StructField × GoValue) → Bool
  | [] => true
  | (_, v) :: rest => goIsZero v && goFieldsZero rest
end

-- escape.go: the string-escaping state machine.

/-- A hexadecimal digit character, lowercase, as fmt uses for %x. -/
def hexDigit (n : Nat) : Char :=
  if n < 10 then Char.ofNat (48 + n) else Char.ofNat (87 + n)

/-- The fixed-width zero-padded lowercase hexadecimal rendering that
fmt.Sprintf produces for the verbs %04x and %08x on code points (every code
point fits the requested width, so the width is exact). -/
def hexPad : Nat → Nat → List Char
  | 0, _ => []
  | w + 1, n => hexPad w (n / 16) ++ [hexDigit (n % 16)]

/-- Model of the external unicode.IsPrint predicate: exact on the ASCII range
(printable means 0x20 through 0x7E); code points above ASCII are treated as
printable. Every character fed to it by a proof below is ASCII. -/
def goIsPrint (r : Char) : Bool :=
  if r.toNat < 128 then decide (32 ≤ r.toNat && r.toNat ≤ 126) else true

/-- escapeAndAppend of escape.go: appends one rune to the output buffer,
escaping newline, carriage return, tab, double quote (when escapeQuote is
set), backslash, and non-printable code points (4 hex digits below 2^16,
8 above). -/
def escapeAndAppend (buf : List Char) (r : Char) (escapeQuote : Bool) : List Char :=
  if r = '\n' then buf ++ ['\\', 'n']
  else if r = '\r' then buf ++ ['\\', 'r']
  else if r = '\t' then buf ++ ['\\', 't']
  else if r = '"' then (if escapeQuote then buf ++ ['\\', '"'] else buf ++ ['"'])
  else if r = '\\' then buf ++ ['\\', '\\']
  else if !goIsPrint r then
    if r.toNat < 65536 then buf ++ ['\\', 'u'] ++ hexPad 4 r.toNat
    else buf ++ ['\\', 'u'] ++ hexPad 8 r.toNat
  else buf ++ [r]

/-- One iteration of the EscapeString loop: given the stack (top first, the
entries are the strings the Go code pushes), the escapeNext flag, the output
so far, the previous character (none at the start) and the next character
(none at the end), consume the current character c. The byte lookarounds of
the Go code, s at i-1 and s at i+1, coincide with these character
lookarounds: the characters compared against, the dollar sign and the open
brace, are one-byte runes that never occur as a non-initial byte of a longer
rune. The default branch of the switch is the panic of escape.go. -/
def escStep (stack : List String) (escapeNext : Bool) (acc : List Char)
    (prev : Option Char) (c : Char) (next : Option Char) :
    Except EncErr (List String × Bool × List Char) :=
  match stack with
  | [] => .error (.goPanic ("runtime error: index out of range"))
  | top :: rest =>
    if top = "" then
      let stack' :=
        if c = '$' ∧ prev ≠ some '$' ∧ next = some '\x7b' then "$\x7b" :: top :: rest
        else top :: rest
      .ok (stack', escapeNext, escapeAndAppend acc c true)
    else if top = "$\x7b" then
      let stack' :=
        if c = '"' then "\"" :: top :: rest
        else if c = '\x7d' then rest
        else top :: rest
      .ok (stack', escapeNext, acc ++ [c])
    else if top = "\"" then
      if c = '$' ∧ prev ≠ some '$' ∧ next = some '\x7b' then
        .ok ("$\x7b" :: top :: rest, false, acc ++ [c])
      else if c = '"' ∧ escapeNext = false then
        .ok (rest, escapeNext, acc ++ [c])
      else if c = '\\' then
        .ok (top :: rest, !escapeNext, acc ++ [c])
      else
        .ok (top :: rest, escapeNext, acc ++ [c])
    else .error (.goPanic ("unexpected stack entry: " ++ top))

/-- The loop of EscapeString over the runes of the input, threading the
previous character for the lookbehind. -/
def escapeLoop : List Char → Option Char → List String → Bool → List Char →
    Except EncErr (List Char)
  | [], _, _, _, acc => .ok acc
  | c :: cs, prev, stack, escapeNext, acc =>
    match escStep stack escapeNext acc prev c cs.head? with
    | .error e => .error e
    | .ok (stack', esc', acc') => escapeLoop cs (some c) stack' esc' acc'

/-- EscapeString of escape.go: escapes a string for use in HCL without
touching the inside of template expressions. The Go function returns a plain
string and can only leave the loop through the panic of the default branch,
which the Except error models. -/
def EscapeString (s : String) : Except EncErr String :=
  (escapeLoop s.data none [""] false []).map (fun l => String.mk l)

/-- The remaining rows of the escape test table of the repository (carriage
return, backslash, and a close brace hidden behind an escaped quote inside an
interpolation), reproduced by the model. -/
theorem escapeTable_remaining_rows :
    EscapeString "\r" = .ok ("\\r") ∧
    EscapeString "\\" = .ok ("\\\\") ∧
    EscapeString "$\x7b\"\x7d\\\"\x7d" = .ok ("$\x7b\"\x7d\\\"\x7d") :=
  ⟨rfl, rfl, rfl⟩

-- nodes.go: tokens and the tokenizer.

/-- A concrete cty value handed to the external hclwrite.TokensForValue. -/
inductive CtyLit where
  | boolLit (b : Bool)
  | uintLit (n : Nat)
  | intLit (n : Int)
  | floatLit (lit : String)
  | strLit (s : String)
deriving DecidableEq, Repr

/-- Whether a cty value has type cty.String, the check of the key branch of
encodeStruct. -/
def isCtyString : CtyLit → Bool
  | .strLit _ => true
  | _ => false

/-- Tokens of an attribute expression. equal, comma, obrace and cbrace model
the literal tokens that tokenize builds by hand; obrack and cbrack model its
bracket tokens for slices (built with the brace token type but bracket
bytes, a quirk kept out of the abstraction). forValue models the token run
the external hclwrite.TokensForValue produces for one concrete cty value,
and lexed models the token run the external hclsyntax.LexExpression produces
for one string; both externals are kept abstract as single carrier tokens.
The lexer is modelled as total: no input proved about below makes it fail,
and no claim depends on when it fails. -/
inductive Tok where
  | equal | comma | obrace | cbrace | obrack | cbrack
  | forValue (v : CtyLit)
  | lexed (s : String)
deriving DecidableEq, Repr

/-- The ordering by key with which tokenize iterates map entries. -/
def keyLe {α : Type} (a b : String × α) : Prop := a.1 ≤ b.1

instance {α : Type} : DecidableRel (keyLe (α := α)) :=
  fun a b => inferInstanceAs (Decidable (a.1 ≤ b.1))

instance {α : Type} : IsTotal (String × α) keyLe :=
  ⟨fun a b => le_total a.1 b.1⟩

instance {α : Type} : IsTrans (String × α) keyLe :=
  ⟨fun _ _ _ hab hbc => le_trans hab hbc⟩

/-- The sort.Strings step of the map branch of tokenize, expressed on the
entry list: Go collects the keys, sorts them ascending and looks each one up
with MapIndex; since the keys of a Go map are unique, that equals iterating
the entries sorted by key, which keeps the recursion structural here. -/
def sortEntries {α : Type} (l : List (String × α)) : List (String × α) :=
  List.insertionSort keyLe l

/-- The loop of the map branch of tokenize over the sorted entries, with the
per-entry results already computed: key tokens, equal sign, value tokens and
a separating comma for every entry but the last (the index test of the Go
loop). The first error, in sorted key order, aborts the whole map exactly as
the early return of the Go loop does. -/
def joinMapEntries (total : Nat) :
    Nat → List (String × Except EncErr (Option (List Tok))) →
    Except EncErr (List Tok)
  | _, [] => .ok []
  | i, (k, tv) :: rest => do
    let val ← tv
    let mine := [Tok.forValue (CtyLit.strLit k), Tok.equal] ++ val.getD []
      ++ (if i < total - 1 then [Tok.comma] else [])
    let rt ← joinMapEntries total (i + 1) rest
    .ok (mine ++ rt)

mutual
/-- tokenize of nodes.go: converts a primitive value into tokens; structs
and maps become object literals and slices become tuples. Pointer and
interface indirection is stripped through deref in the source; the deref
chain is expressed here one layer at a time (a nil anywhere in the chain
yields nil tokens without an error, as the Pointer and Interface case
returns). The default of the switch is the cannot-encode error. -/
def tokenize : GoValue → fieldMeta → Except EncErr (Option (List Tok))
  | .boolV b, _ => .ok (some [Tok.forValue (CtyLit.boolLit b)])
  | .uintV n, _ => .ok (some [Tok.forValue (CtyLit.uintLit n)])
  | .intV n, _ => .ok (some [Tok.forValue (CtyLit.intLit n)])
  | .floatV lit, _ => .ok (some [Tok.forValue (CtyLit.floatLit lit)])
  | .strV s, meta => do
    let val ←
      if meta.expression then pure s
      else do
        let e ← EscapeString s
        pure ("\"" ++ e ++ "\"")
    .ok (some [Tok.lexed val])
  | .ptrNil _, _ => .ok none
  | .ifaceNil, _ => .ok none
  | .ptrSome _ v, meta =>
    match v with
    | .sliceV _ true _ => .ok none
    | .mapV _ _ true _ => .ok none
    | .invalidV => .ok none
    | v' => tokenize v' meta
  | .ifaceSome v, meta =>
    match v with
    | .sliceV _ true _ => .ok none
    | .mapV _ _ true _ => .ok none
    | .invalidV => .ok none
    | v' => tokenize v' meta
  | .structV _ fs, _ => do
    let inner ← tokenizeStructFields fs.length 0 fs
    .ok (some ([Tok.obrace] ++ inner ++ [Tok.cbrace]))
  | .sliceV _ _ elems, meta => do
    let inner ← tokenizeSliceElems meta elems.length 0 elems
    .ok (some ([Tok.obrack] ++ inner ++ [Tok.cbrack]))
  | .mapV kt _ _ entries, meta =>
    if typeKind kt = GoKind.kString then do
      let inner ← joinMapEntries entries.length 0
        (sortEntries (tokenizeMapEntries meta entries))
      .ok (some ([Tok.obrace] ++ inner ++ [Tok.cbrace]))
    else
      .error (.goError ("map keys must be strings, " ++ kindName (typeKind kt)
        ++ " given"))
  | .chanV, _ =>
    .error (.goError ("cannot encode primitive kind chan to token"))
  | .invalidV, _ =>
    .error (.goError ("cannot encode primitive kind invalid to token"))

/-- The struct branch loop of tokenize: per field it re-extracts the field
meta, skips the field when omitempty holds and the value is zero, and emits
the quoted field name, an equal sign, the field value tokens and a comma when
the field index is not the last one (so a skipped last field still leaves the
comma of its predecessor in place, as in the source). -/
def tokenizeStructFields (total : Nat) :
    Nat → List (StructField × GoValue) → Except EncErr (List Tok)
  | _, [] => .ok []
  | i, (f, rawVal) :: rest =>
    let meta := extractFieldMeta f
    if meta.omitEmpty && goIsZero rawVal then
      tokenizeStructFields total (i + 1) rest
    else do
      let val ← tokenize rawVal meta
      let rt ← tokenizeStructFields total (i + 1) rest
      .ok (([Tok.forValue (CtyLit.strLit meta.name), Tok.equal] ++ val.getD []
        ++ (if i < total - 1 then [Tok.comma] else [])) ++ rt)

/-- The slice branch loop of tokenize: element tokens separated by commas,
with the comma decided by the element index as in the source. -/
def tokenizeSliceElems (meta : fieldMeta) (total : Nat) :
    Nat → List GoValue → Except EncErr (List Tok)
  | _, [] => .ok []
  | i, v :: rest => do
    let value ← tokenize v meta
    let rt ← tokenizeSliceElems meta total (i + 1) rest
    .ok ((value.getD [] ++ (if i < total - 1 then [Tok.comma] else [])) ++ rt)

/-- The per-entry tokenization of the map branch of tokenize, computed in
iteration order before sorting; pairing each key with the outcome for its
value keeps the map branch structural while preserving which error, in
sorted key order, surfaces first. -/
def tokenizeMapEntries (meta : fieldMeta) :
    List (String × GoValue) → List (String × Except EncErr (Option (List Tok)))
  | [] => []
  | (k, v) :: rest => (k, tokenize v meta) :: tokenizeMapEntries meta rest
end

-- nodes.go: Node, blocks, bodies and the encoders.

/-- One item of an hclwrite block body (or of the top-level file body):
an attribute set from a cty value (Body.SetAttributeValue), an attribute set
from raw tokens (Body.SetAttributeRaw), a nested block (Body.AppendBlock), or
an unstructured token run (Body.AppendUnstructuredTokens). The blockB item
carries the block inline; rawSplice carries the items whose built tokens were
appended, which is how SquashBlock splices a body: at the rendered-text level
the splice shows the items in place, while staying opaque to the attribute
lookup that the set-attribute operations perform. -/
inductive BodyItem where
  | attrValue (name : String) (v : CtyLit)
  | attrRaw (name : String) (tks : List Tok)
  | blockB (typ : String) (labels : List String) (body : List BodyItem)
  | rawSplice (items : List BodyItem)
deriving Repr

/-- An hclwrite.Block: its type name, labels and body. -/
structure HBlock where
  typ : String
  labels : List String
  body : List BodyItem
deriving Repr

/-- A block embedded as a body item. -/
def blockItem (b : HBlock) : BodyItem :=
  .blockB b.typ b.labels b.body

/-- The set-attribute semantics of hclwrite: replace the first attribute
already carrying the name in place, else append at the end. Blocks and
unstructured token runs are invisible to the lookup. -/
def setAttr : List BodyItem → String → BodyItem → List BodyItem
  | [], _, item => [item]
  | i :: rest, nm, item =>
    match i with
    | .attrValue n v =>
      if n = nm then item :: rest else .attrValue n v :: setAttr rest nm item
    | .attrRaw n tks =>
      if n = nm then item :: rest else .attrRaw n tks :: setAttr rest nm item
    | other => other :: setAttr rest nm item

/-- The Node record of nodes.go: four nilable fields, at most one of them
populated by the encoders; the all-empty record models the Go node whose
slices and pointers are all nil. -/
structure Node where
  block : Option HBlock := none
  blockList : Option (List HBlock) := none
  value : Option CtyLit := none
  tokens : Option (List Tok) := none
deriving Repr

/-- Node.isValue of nodes.go. -/
def Node.isValue (n : Node) : Bool := n.value.isSome

/-- Node.isBlock of nodes.go. -/
def Node.isBlock (n : Node) : Bool := n.block.isSome

/-- Node.isBlockList of nodes.go: true exactly when the BlockList slice is
non-nil, so a node built from an empty block list stays unrecognized. -/
def Node.isBlockList (n : Node) : Bool := n.blockList.isSome

/-- Node.isTokens of nodes.go. -/
def Node.isTokens (n : Node) : Bool := n.tokens.isSome

/-- encodePrimitive of nodes.go: for a key field the value is surfaced as a
cty string built from reflect.Value.String without tokenizing (the source
comment says keys must be literals); otherwise the value is tokenized and
carried as raw tokens. -/
def encodePrimitive (v : GoValue) (meta : fieldMeta) : Except EncErr Node :=
  if meta.key then .ok { value := some (.strLit (goString v)) }
  else do
    let tkn ← tokenize v meta
    .ok { tokens := tkn }

/-- encodePrimitiveList of nodes.go, which delegates to encodePrimitive. -/
def encodePrimitiveList (v : GoValue) (meta : fieldMeta) : Except EncErr Node :=
  encodePrimitive v meta

/-- The child element type classification of encodeList: strip pointer
layers from the element type. -/
def stripPtrType : GoType → GoType
  | .ptrT t => stripPtrType t
  | t => t

/-- Whether encodeList routes a slice to encodeBlockList: the stripped
element kind is map, struct or interface. -/
def isBlockElemKind (k : GoKind) : Bool :=
  match k with
  | .kMap | .kStruct | .kInterface => true
  | _ => false

mutual
/-- encodeField of nodes.go (the recursive encode worker): dereference nil
indirection to nothing, send primitives and maps to encodePrimitive, slices
to the encodeList dispatch, structs to the struct encoder, and fail on every
other kind. The deref chain of the source is expressed one indirection layer
at a time, and the encodeList and encodeBlockList dispatch on a slice is laid
out inline so that the recursion stays structural; the standalone
encodeList and encodeBlockList below restate them one to one. -/
def encodeField : GoValue → fieldMeta → Except EncErr (Option Node)
  | .invalidV, _ => .ok none
  | .ptrNil _, _ => .ok none
  | .ifaceNil, _ => .ok none
  | .ptrSome _ v, meta => encodeField v meta
  | .ifaceSome v, meta => encodeField v meta
  | .sliceV _ true _, _ => .ok none
  | .mapV _ _ true _, _ => .ok none
  | .boolV b, meta => (encodePrimitive (.boolV b) meta).map some
  | .intV n, meta => (encodePrimitive (.intV n) meta).map some
  | .uintV n, meta => (encodePrimitive (.uintV n) meta).map some
  | .floatV lit, meta => (encodePrimitive (.floatV lit) meta).map some
  | .strV s, meta => (encodePrimitive (.strV s) meta).map some
  | .mapV kt et false entries, meta =>
    (encodePrimitive (.mapV kt et false entries) meta).map some
  | .sliceV t false elems, meta =>
    if isBlockElemKind (typeKind (stripPtrType t)) then
      if meta.repeatBlock then do
        let bs ← blockListElems meta elems
        .ok (some { blockList := bs })
      else (encodePrimitiveList (.sliceV t false elems) meta).map some
    else (encodePrimitiveList (.sliceV t false elems) meta).map some
  | .structV _ fs, meta => do
    let b ← encodeFieldsLoop fs meta.name [] []
    .ok (some { block := some b })
  | .chanV, _ => .error (.goError ("cannot encode kind chan to HCL"))

/-- The loop of encodeBlockList over the slice elements: each element goes
straight to the struct encoder (the source never dereferences here, which is
what makes pointer elements panic), and each resulting block is appended in
element order. The slice of collected blocks follows the Go nil-slice
discipline: it stays nil when nothing was appended, so an empty element list
yields none. The nil-node skip of the source loop is dead code, since the
struct encoder never returns a nil node without an error. -/
def blockListElems (meta : fieldMeta) : List GoValue → Except EncErr (Option (List HBlock))
  | [] => .ok none
  | v :: rest => do
    let b ← encodeStructValue v meta
    let bs ← blockListElems meta rest
    .ok (some (b :: bs.getD []))

/-- The body of encodeStruct of nodes.go: reflect.Value.NumField panics for
every non-struct kind, which encodeBlockList can reach; a struct value is
folded field by field. -/
def encodeStructValue : GoValue → fieldMeta → Except EncErr HBlock
  | .structV _ fs, parentMeta => encodeFieldsLoop fs parentMeta.name [] []
  | v, _ =>
    .error (.goPanic ("reflect: call of reflect.Value.NumField on "
      ++ kindName (goKindOf v) ++ " Value"))

/-- The field loop of encodeStruct, threading the block under construction
(type name, labels, body): skip debugging and omitted fields, skip zero
values under omitempty, skip fields that encode to nothing; bubble key
fields up as labels when they carry a cty string and fail otherwise; fail
when a squash field did not produce a block; splice squashed blocks (body
tokens appended, labels appended); append nested blocks, splice block lists,
and set value and token attributes under the resolved field name. A node
with no populated variant is the unknown-value-type error. -/
def encodeFieldsLoop : List (StructField × GoValue) → String → List String →
    List BodyItem → Except EncErr HBlock
  | [], typ, labels, body => .ok ⟨typ, labels, body⟩
  | (f, rawVal) :: rest, typ, labels, body =>
    let meta := extractFieldMeta f
    if meta.unusedKeys || meta.decodedFields || meta.omit' then
      encodeFieldsLoop rest typ labels body
    else if meta.omitEmpty && goIsZero rawVal then
      encodeFieldsLoop rest typ labels body
    else do
      let val? ← encodeField rawVal meta
      match val? with
      | none => encodeFieldsLoop rest typ labels body
      | some val =>
        if meta.key then
          match val.value with
          | some (.strLit label) =>
            encodeFieldsLoop rest typ (labels ++ [label]) body
          | _ => .error (.goError ("struct key fields must be string literals"))
        else if meta.squash && !val.isBlock then
          .error (.goError ("squash fields must be structs"))
        else
          match val.block with
          | some b =>
            if meta.squash then
              encodeFieldsLoop rest typ (labels ++ b.labels)
                (body ++ [BodyItem.rawSplice b.body])
            else
              encodeFieldsLoop rest typ labels (body ++ [blockItem b])
          | none =>
            match val.blockList with
            | some bl =>
              encodeFieldsLoop rest typ labels (body ++ bl.map blockItem)
            | none =>
              match val.value with
              | some cv =>
                encodeFieldsLoop rest typ labels
                  (setAttr body meta.name (BodyItem.attrValue meta.name cv))
              | none =>
                match val.tokens with
                | some tks =>
                  encodeFieldsLoop rest typ labels
                    (setAttr body meta.name (BodyItem.attrRaw meta.name tks))
                | none => .error (.goError ("unknown value type"))
end

/-- encodeStruct of nodes.go: a struct becomes a block named by the parent
field meta; any other kind panics inside reflect. -/
def encodeStruct (v : GoValue) (parentMeta : fieldMeta) : Except EncErr Node :=
  (encodeStructValue v parentMeta).map (fun b => { block := some b })

/-- encodeBlockList of nodes.go: without the repeated-block flag the slice
goes to encodePrimitiveList unchanged; with it, every element is struct
encoded and the blocks are collected in order. -/
def encodeBlockList (v : GoValue) (meta : fieldMeta) : Except EncErr Node :=
  if meta.repeatBlock then
    match v with
    | .sliceV _ _ elems => do
      let bs ← blockListElems meta elems
      .ok { blockList := bs }
    | v =>
      .error (.goPanic ("reflect: call of reflect.Value.Len on "
        ++ kindName (goKindOf v) ++ " Value"))
  else encodePrimitiveList v meta

/-- encodeList of nodes.go: classify the slice by its element type after
stripping pointer layers; map, struct and interface elements go to
encodeBlockList, everything else to encodePrimitiveList. -/
def encodeList (v : GoValue) (meta : fieldMeta) : Except EncErr Node :=
  match v with
  | .sliceV t isNil elems =>
    if isBlockElemKind (typeKind (stripPtrType t)) then
      encodeBlockList (.sliceV t isNil elems) meta
    else encodePrimitiveList (.sliceV t isNil elems) meta
  | v =>
    .error (.goPanic ("reflect: call of reflect.Value.Elem on "
      ++ kindName (goKindOf v) ++ " Value"))

/-- encode of nodes.go: encodeField with the zero field meta. -/
def encode (v : GoValue) : Except EncErr (Option Node) :=
  encodeField v {}

-- hclencoder.go: document assembly.

/-- SquashBlock of nodes.go: the built tokens of the inner block body are
appended to the target body as one unstructured run. -/
def SquashBlock (innerBlock : HBlock) (body : List BodyItem) : List BodyItem :=
  body ++ [BodyItem.rawSplice innerBlock.body]

/-- addRootBlock of hclencoder.go: a root block without a type name is
squashed into the file body; a named one is appended as a block. -/
def addRootBlock (b : HBlock) (body : List BodyItem) : List BodyItem :=
  if b.typ = "" then SquashBlock b body else body ++ [blockItem b]

/-- Encode of hclencoder.go: encode the root value, lay a block root out via
addRootBlock, append each block of a block-list root, and reject every other
root node. The document is modelled as the assembled file body (the final
hclwrite.Format rendering to bytes is the external pretty-printer); the nil
root node that a nil input produces makes the Go method calls on it
dereference a nil pointer, modelled as the runtime panic. -/
def Encode (v : GoValue) : Except EncErr (List BodyItem) := do
  let node? ← encode v
  match node? with
  | none =>
    .error (.goPanic ("runtime error: invalid memory address or nil pointer dereference"))
  | some node =>
    match node.block with
    | some b => .ok (addRootBlock b [])
    | none =>
      match node.blockList with
      | some bl => .ok (bl.map blockItem)
      | none =>
        .error (.goError ("invalid root type - needs to be a block or block list"))

-- Claim theorems.

/-- C1: the claim says a key-flagged field holding a non-string value (an
integer, as in the InvalidKeyStruct type of the repository tests) makes
Encode fail with the struct-key-fields error. The code does not: for an
integer field, reflect.Value.String returns the placeholder of the form
<int Value>, encodePrimitive wraps it in cty.StringVal, the cty.String type
test of encodeStruct therefore passes, and the struct encodes without any
error into a block labelled with the placeholder. -/
theorem intKeyField_encodedWithoutError :
    encodeStruct (.structV "InvalidKeyStruct"
        [({ name := "Bar", hclTag := ",key" }, .intV 123)]) {} =
      .ok { block := some ⟨"", ["<int Value>"], []⟩ } ∧
    Encode (.structV "InvalidKeyStruct"
        [({ name := "Bar", hclTag := ",key" }, .intV 123)]) =
      .ok [BodyItem.rawSplice []] :=
  ⟨rfl, rfl⟩

/-- C2: the escaper correctness table. Newline and tab become their two
character escapes, a lone double quote is escaped, the pure interpolation
string is returned unchanged, and the quoted interpolation string has
exactly its outer quotes escaped. -/
theorem escapeTable_correct :
    EscapeString "\n" = .ok ("\\n") ∧
    EscapeString "\t" = .ok ("\\t") ∧
    EscapeString "\"" = .ok ("\\\"") ∧
    EscapeString "$\x7b\"test\"\x7d" = .ok ("$\x7b\"test\"\x7d") ∧
    EscapeString "\"$\x7b\"test\"\x7d\"" = .ok ("\\\"$\x7b\"test\"\x7d\\\"") :=
  ⟨rfl, rfl, rfl, rfl, rfl⟩

/-- C6: the claim says nil elements of a repeated-block slice are skipped.
The code instead panics: encodeBlockList hands every element of a pointer
slice straight to encodeStruct without dereferencing, and
reflect.Value.NumField panics on the pointer kind, for a nil element (shown
here) and a non-nil one alike; the nil-skip test in the loop is dead code.
The whole encode aborts through the panic instead of skipping. -/
theorem nilPtrElement_blocksFlag_panics :
    encodeBlockList (.sliceV (.ptrT (.structT "TestStruct")) false
        [.ptrNil (.structT "TestStruct")])
        { name := "Widget", repeatBlock := true } =
      .error (.goPanic ("reflect: call of reflect.Value.NumField on ptr Value")) ∧
    Encode (.structV "W" [({ name := "Widget", hclTag := ",blocks" },
        .sliceV (.ptrT (.structT "TestStruct")) false
          [.ptrNil (.structT "TestStruct")])]) =
      .error (.goPanic ("reflect: call of reflect.Value.NumField on ptr Value")) :=
  ⟨rfl, rfl⟩

/-- C8: whatever error the recursive encoder returns for the root value,
Encode surfaces exactly that error, and the Except result carries no
document alongside it (the Go function returns nil bytes with the error). -/
theorem encode_error_propagates (v : GoValue) (e : EncErr)
    (h : encode v = .error e) : Encode v = .error e := by
  unfold Encode
  rw [h]
  rfl

/-- C8 witness: a channel field nested two structs deep fails with the
unsupported-kind error, and Encode returns that same error unchanged. -/
theorem encode_error_propagates_witness :
    encode (.structV "Outer" [({ name := "Inner" },
        .structV "Inner" [({ name := "C" }, .chanV)])]) =
      .error (.goError ("cannot encode kind chan to HCL")) ∧
    Encode (.structV "Outer" [({ name := "Inner" },
        .structV "Inner" [({ name := "C" }, .chanV)])]) =
      .error (.goError ("cannot encode kind chan to HCL")) :=
  ⟨rfl, encode_error_propagates _ _ rfl⟩

/-- C9: a non-nil empty slice under the repeated-block flag makes
encodeBlockList return a node with no populated variant (the collected Go
slice of blocks stays nil), so the enclosing struct encoder falls through
every variant test and fails with the unknown-value-type error rather than
emitting an empty list attribute or omitting the field. -/
theorem emptyBlocksSlice_unknownValueType (pn fn sn : String) :
    encodeBlockList (.sliceV (.structT sn) false [])
        { name := fn, repeatBlock := true } = .ok {} ∧
    Encode (.structV pn [({ name := fn, hclTag := ",blocks" },
        .sliceV (.structT sn) false [])]) =
      .error (.goError ("unknown value type")) :=
  ⟨rfl, rfl⟩

/-- C10 counterexample: the claim quantifies over every map with a
non-string key kind, but a key-flagged field bypasses the tokenizer: the
whole map is rendered by reflect.Value.String into a placeholder label and
the struct encodes without any error, so no map-keys error is produced. -/
theorem keyFlaggedIntKeyMap_encodes :
    encodeStruct (.structV "S" [({ name := "M", hclTag := ",key" },
        .mapV .intT .stringT false [])]) {} =
      .ok { block := some ⟨"", ["<map[int]string Value>"], []⟩ } ∧
    Encode (.structV "S" [({ name := "M", hclTag := ",key" },
        .mapV .intT .stringT false [])]) =
      .ok [BodyItem.rawSplice []] :=
  ⟨rfl, rfl⟩

/-- C10 amended: whenever a map actually reaches the tokenizer (every
encoding position except a key-flagged field), a non-string key kind fails
with the map-keys error naming the kind, before any entry is read, and the
same error is what the field encoder returns. -/
theorem nonStringKeyMap_tokenize_fails (kt et : GoType)
    (entries : List (String × GoValue)) (meta : fieldMeta)
    (hk : typeKind kt ≠ .kString) (hkey : meta.key = false) :
    tokenize (.mapV kt et false entries) meta =
      .error (.goError ("map keys must be strings, " ++ kindName (typeKind kt)
        ++ " given")) ∧
    encodeField (.mapV kt et false entries) meta =
      .error (.goError ("map keys must be strings, " ++ kindName (typeKind kt)
        ++ " given")) := by
  have h1 : tokenize (.mapV kt et false entries) meta =
      .error (.goError ("map keys must be strings, " ++ kindName (typeKind kt)
        ++ " given")) := by
    simp [tokenize, hk]
  refine ⟨h1, ?_⟩
  show (encodePrimitive (.mapV kt et false entries) meta).map some = _
  unfold encodePrimitive
  rw [hkey, h1]
  rfl

/-- C10 amended witness: a map with int keys and no key flag fails with the
map-keys error at both the tokenizer and the field encoder. -/
theorem nonStringKeyMap_tokenize_fails_witness :
    tokenize (.mapV .intT .stringT false []) {} =
      .error (.goError ("map keys must be strings, int given")) ∧
    encodeField (.mapV .intT .stringT false []) {} =
      .error (.goError ("map keys must be strings, int given")) :=
  nonStringKeyMap_tokenize_fails .intT .stringT [] {} (by decide) rfl


/-- The stack shapes EscapeString can ever hold: expression and nested-quote
markers stacked over the bottom plain marker. -/
def okStack (stack : List String) : Prop :=
  ∃ l, stack = l ++ [""] ∧ ∀ x ∈ l, x = "$\x7b" ∨ x = "\""

theorem escStep_plain (rest : List String) (esc : Bool) (acc : List Char)
    (prev : Option Char) (c : Char) (next : Option Char) :
    escStep ("" :: rest) esc acc prev c next =
      .ok ((if c = '$' ∧ prev ≠ some '$' ∧ next = some '\x7b'
              then "$\x7b" :: "" :: rest else "" :: rest),
           esc, escapeAndAppend acc c true) := rfl

theorem escStep_expr (rest : List String) (esc : Bool) (acc : List Char)
    (prev : Option Char) (c : Char) (next : Option Char) :
    escStep ("$\x7b" :: rest) esc acc prev c next =
      .ok ((if c = '"' then "\"" :: "$\x7b" :: rest
            else if c = '\x7d' then rest else "$\x7b" :: rest),
           esc, acc ++ [c]) := rfl

theorem escStep_quote (rest : List String) (esc : Bool) (acc : List Char)
    (prev : Option Char) (c : Char) (next : Option Char) :
    escStep ("\"" :: rest) esc acc prev c next =
      (if c = '$' ∧ prev ≠ some '$' ∧ next = some '\x7b' then
         .ok ("$\x7b" :: "\"" :: rest, false, acc ++ [c])
       else if c = '"' ∧ esc = false then .ok (rest, esc, acc ++ [c])
       else if c = '\\' then .ok ("\"" :: rest, !esc, acc ++ [c])
       else .ok ("\"" :: rest, esc, acc ++ [c])) := rfl

theorem escStep_isOk (stack : List String) (esc : Bool) (acc : List Char)
    (prev : Option Char) (c : Char) (next : Option Char) (h : okStack stack) :
    ∃ r, escStep stack esc acc prev c next = .ok r := by
  obtain ⟨l, rfl, hl⟩ := h
  cases l with
  | nil => rw [List.nil_append, escStep_plain]; exact ⟨_, rfl⟩
  | cons x l' =>
    rcases hl x (List.mem_cons_self x l') with hx | hx <;> subst hx
    · rw [List.cons_append, escStep_expr]; exact ⟨_, rfl⟩
    · rw [List.cons_append, escStep_quote]
      split
      · exact ⟨_, rfl⟩
      · split
        · exact ⟨_, rfl⟩
        · split <;> exact ⟨_, rfl⟩

theorem escStep_preserves (stack : List String) (esc : Bool) (acc : List Char)
    (prev : Option Char) (c : Char) (next : Option Char) (h : okStack stack)
    (st' : List String) (esc' : Bool) (acc' : List Char)
    (he : escStep stack esc acc prev c next = .ok (st', esc', acc')) :
    okStack st' := by
  obtain ⟨l, rfl, hl⟩ := h
  cases l with
  | nil =>
    rw [List.nil_append, escStep_plain] at he
    simp only [Except.ok.injEq, Prod.mk.injEq] at he
    obtain ⟨h1, -, -⟩ := he
    subst h1
    split
    · exact ⟨["$\x7b"], rfl, by simp⟩
    · exact ⟨[], rfl, by simp⟩
  | cons x l' =>
    have hl' : ∀ y ∈ l', y = "$\x7b" ∨ y = "\"" :=
      fun y hy => hl y (List.mem_cons_of_mem x hy)
    rcases hl x (List.mem_cons_self x l') with hx | hx <;> subst hx
    · rw [List.cons_append, escStep_expr] at he
      simp only [Except.ok.injEq, Prod.mk.injEq] at he
      obtain ⟨h1, -, -⟩ := he
      subst h1
      split
      · refine ⟨"\"" :: "$\x7b" :: l', rfl, ?_⟩
        intro y hy
        simp only [List.mem_cons] at hy
        rcases hy with rfl | rfl | hy
        · exact Or.inr rfl
        · exact Or.inl rfl
        · exact hl' y hy
      · split
        · exact ⟨l', rfl, hl'⟩
        · refine ⟨"$\x7b" :: l', rfl, ?_⟩
          intro y hy
          simp only [List.mem_cons] at hy
          rcases hy with rfl | hy
          · exact Or.inl rfl
          · exact hl' y hy
    · rw [List.cons_append, escStep_quote] at he
      split at he
      · simp only [Except.ok.injEq, Prod.mk.injEq] at he
        obtain ⟨h1, -, -⟩ := he
        subst h1
        refine ⟨"$\x7b" :: "\"" :: l', rfl, ?_⟩
        intro y hy
        simp only [List.mem_cons] at hy
        rcases hy with rfl | rfl | hy
        · exact Or.inl rfl
        · exact Or.inr rfl
        · exact hl' y hy
      · split at he
        · simp only [Except.ok.injEq, Prod.mk.injEq] at he
          obtain ⟨h1, -, -⟩ := he
          subst h1
          exact ⟨l', rfl, hl'⟩
        · split at he <;>
          · simp only [Except.ok.injEq, Prod.mk.injEq] at he
            obtain ⟨h1, -, -⟩ := he
            subst h1
            refine ⟨"\"" :: l', rfl, ?_⟩
            intro y hy
            simp only [List.mem_cons] at hy
            rcases hy with rfl | hy
            · exact Or.inr rfl
            · exact hl' y hy

theorem escapeLoop_isOk (cs : List Char) :
    ∀ (prev : Option Char) (stack : List String) (esc : Bool) (acc : List Char),
    okStack stack → ∃ out, escapeLoop cs prev stack esc acc = .ok out := by
  induction cs with
  | nil => exact fun _ _ _ acc _ => ⟨acc, rfl⟩
  | cons c cs ih =>
    intro prev stack esc acc h
    obtain ⟨⟨st', esc', acc'⟩, hr⟩ := escStep_isOk stack esc acc prev c cs.head? h
    have hinv := escStep_preserves stack esc acc prev c cs.head? h st' esc' acc' hr
    obtain ⟨out, hout⟩ := ih (some c) st' esc' acc' hinv
    exact ⟨out, by unfold escapeLoop; rw [hr]; exact hout⟩

/-- C3: EscapeString is total: for every input it returns a string, and in
particular neither the unexpected-stack-entry panic of the default branch
nor any other failure is reachable, because the only markers ever pushed are
the plain, expression and nested-quote ones (okStack is preserved by every
step of the machine). -/
theorem escape_total (s : String) : ∃ out, EscapeString s = .ok out := by
  obtain ⟨out, h⟩ := escapeLoop_isOk s.data none [""] false []
    ⟨[], rfl, by intro x hx; cases hx⟩
  exact ⟨String.mk out, by unfold EscapeString; rw [h]; rfl⟩

/-- C7: how Encode assembles the document from the root node. A block with
an empty type name has its body spliced directly into the top-level file
body (anonymous-root flattening); a block with a non-empty name becomes the
sole top-level block; a block list contributes its blocks, in order, as the
top-level blocks; any other node fails with the invalid-root error. -/
theorem encode_root_assembly (v : GoValue) (node : Node)
    (h : encode v = .ok (some node)) :
    (∀ b, node.block = some b → b.typ = "" →
      Encode v = .ok [BodyItem.rawSplice b.body]) ∧
    (∀ b, node.block = some b → b.typ ≠ "" →
      Encode v = .ok [blockItem b]) ∧
    (∀ bl, node.block = none → node.blockList = some bl →
      Encode v = .ok (bl.map blockItem)) ∧
    (node.block = none → node.blockList = none →
      Encode v = .error (.goError
        ("invalid root type - needs to be a block or block list"))) := by
  have hE : Encode v =
      (match node.block with
       | some b => .ok (addRootBlock b [])
       | none =>
         match node.blockList with
         | some bl => .ok (bl.map blockItem)
         | none => .error (.goError
             ("invalid root type - needs to be a block or block list"))) := by
    unfold Encode; rw [h]; rfl
  refine ⟨?_, ?_, ?_, ?_⟩
  · intro b hb ht
    rw [hE]; simp only [hb]
    simp [addRootBlock, SquashBlock, ht]
  · intro b hb ht
    rw [hE]; simp only [hb]
    simp [addRootBlock, ht]
  · intro bl hb hbl
    rw [hE]; simp only [hb, hbl]
  · intro hb hbl
    rw [hE]; simp only [hb, hbl]

/-- C7 witness: the empty struct encodes to a block with an empty type name,
whose (empty) body is spliced directly into the top-level document body. -/
theorem encode_root_assembly_witness :
    encode (.structV "S" []) = .ok (some { block := some ⟨"", [], []⟩ }) ∧
    Encode (.structV "S" []) = .ok [BodyItem.rawSplice []] :=
  ⟨rfl, (encode_root_assembly (.structV "S" [])
    { block := some ⟨"", [], []⟩ } rfl).1 ⟨"", [], []⟩ rfl rfl⟩

theorem tokenizeMapEntries_eq_map (meta : fieldMeta)
    (l : List (String × GoValue)) :
    tokenizeMapEntries meta l = l.map (fun p => (p.1, tokenize p.2 meta)) := by
  induction l with
  | nil => rfl
  | cons p rest ih => cases p; simp [tokenizeMapEntries, ih]

theorem sorted_nodupkeys_perm_eq {α : Type} :
    ∀ {l₁ l₂ : List (String × α)}, l₁.Perm l₂ →
      l₁.Sorted keyLe → l₂.Sorted keyLe → (l₁.map Prod.fst).Nodup → l₁ = l₂ := by
  intro l₁
  induction l₁ with
  | nil =>
    intro l₂ hp _ _ _
    exact (hp.symm.eq_nil).symm
  | cons a t₁ ih =>
    intro l₂ hp hs₁ hs₂ hnd
    cases l₂ with
    | nil => exact absurd hp.eq_nil (by simp)
    | cons b t₂ =>
      have hab : a = b := by
        have hbmem : b ∈ a :: t₁ := hp.mem_iff.mpr (List.mem_cons_self b t₂)
        rw [List.mem_cons] at hbmem
        rcases hbmem with rfl | hbt
        · rfl
        · have key_ab : keyLe a b := (List.rel_of_sorted_cons hs₁) b hbt
          have hamem : a ∈ b :: t₂ := hp.mem_iff.mp (List.mem_cons_self a t₁)
          rw [List.mem_cons] at hamem
          have hfst : a.1 = b.1 := by
            rcases hamem with heq | hat
            · rw [heq]
            · exact le_antisymm key_ab ((List.rel_of_sorted_cons hs₂) a hat)
          exfalso
          have hmem : a.1 ∈ t₁.map Prod.fst := by
            rw [hfst]; exact List.mem_map_of_mem Prod.fst hbt
          simp only [List.map_cons, List.nodup_cons] at hnd
          exact hnd.1 hmem
      subst hab
      have ht : t₁ = t₂ := by
        refine ih hp.cons_inv hs₁.of_cons hs₂.of_cons ?_
        simp only [List.map_cons, List.nodup_cons] at hnd
        exact hnd.2
      rw [ht]

theorem sortEntries_eq_of_perm {α : Type} (l₁ l₂ : List (String × α))
    (hp : l₁.Perm l₂) (hnd : (l₁.map Prod.fst).Nodup) :
    sortEntries l₁ = sortEntries l₂ := by
  apply sorted_nodupkeys_perm_eq
  · exact (List.perm_insertionSort keyLe l₁).trans
      (hp.trans (List.perm_insertionSort keyLe l₂).symm)
  · exact List.sorted_insertionSort keyLe l₁
  · exact List.sorted_insertionSort keyLe l₂
  · exact ((List.perm_insertionSort keyLe l₁).map Prod.fst).nodup_iff.mpr hnd

/-- C5: tokenizing a string-keyed map emits the entries in ascending
lexicographic key order whatever the iteration order of the map was, so two
maps holding the same entries in any two orders (with no duplicate keys)
tokenize to identical output. -/
theorem mapEncoding_deterministic (et : GoType) (meta : fieldMeta)
    (e₁ e₂ : List (String × GoValue)) (hp : e₁.Perm e₂)
    (hnd : (e₁.map Prod.fst).Nodup) :
    tokenize (.mapV .stringT et false e₁) meta =
      tokenize (.mapV .stringT et false e₂) meta ∧
    ((sortEntries (tokenizeMapEntries meta e₁)).map Prod.fst).Sorted (· ≤ ·) := by
  have hpm : (tokenizeMapEntries meta e₁).Perm (tokenizeMapEntries meta e₂) := by
    rw [tokenizeMapEntries_eq_map, tokenizeMapEntries_eq_map]
    exact hp.map _
  have hndm : ((tokenizeMapEntries meta e₁).map Prod.fst).Nodup := by
    rw [tokenizeMapEntries_eq_map, List.map_map]
    exact hnd
  have hsort : sortEntries (tokenizeMapEntries meta e₁) =
      sortEntries (tokenizeMapEntries meta e₂) :=
    sortEntries_eq_of_perm _ _ hpm hndm
  constructor
  · have hlen : e₁.length = e₂.length := hp.length_eq
    simp only [tokenize]
    rw [hlen, hsort]
  · have hs := List.sorted_insertionSort keyLe (tokenizeMapEntries meta e₁)
    rw [List.Sorted, List.pairwise_map]
    exact hs

/-- C5 witness: a two-entry map in its two iteration orders tokenizes to the
same output. -/
theorem mapEncoding_deterministic_witness :
    tokenize (.mapV .stringT .intT false [("b", .intV 1), ("a", .intV 2)]) {} =
      tokenize (.mapV .stringT .intT false [("a", .intV 2), ("b", .intV 1)]) {} :=
  (mapEncoding_deterministic .intT {} _ _
    (List.Perm.swap ("a", GoValue.intV 2) ("b", GoValue.intV 1) [])
    (by decide)).1

theorem errBind {α β : Type} (e : EncErr) (f : α → Except EncErr β) :
    (Except.error e >>= f) = Except.error e := rfl

theorem okBind {α β : Type} (a : α) (f : α → Except EncErr β) :
    (Except.ok a >>= f) = f a := rfl

theorem extractFieldMeta_plain (fn : String) :
    extractFieldMeta { name := fn } = { name := fn } := rfl

theorem extractFieldMeta_blocks (fn : String) :
    extractFieldMeta { name := fn, hclTag := ",blocks" } =
      { name := fn, repeatBlock := true } := rfl

theorem encodeFieldsLoop_typ :
    ∀ (fs : List (StructField × GoValue)) (typ : String) (labels : List String)
      (body : List BodyItem) (blk : HBlock),
      encodeFieldsLoop fs typ labels body = .ok blk → blk.typ = typ := by
  intro fs
  induction fs with
  | nil =>
    intro typ labels body blk h
    rw [encodeFieldsLoop] at h
    simp only [Except.ok.injEq] at h
    rw [← h]
  | cons p rest ih =>
    intro typ labels body blk h
    obtain ⟨f, rv⟩ := p
    rw [encodeFieldsLoop] at h
    split at h
    · exact ih _ _ _ _ h
    split at h
    · exact ih _ _ _ _ h
    rcases hv : encodeField rv (extractFieldMeta f) with e | val?
    · rw [hv, errBind] at h; exact Except.noConfusion h
    rw [hv, okBind] at h
    cases val? with
    | none => exact ih _ _ _ _ h
    | some val =>
      repeat'
        first
          | exact ih _ _ _ _ h
          | exact Except.noConfusion h
          | split at h

theorem encodeStructValue_ok_shape (v : GoValue) (meta : fieldMeta) (b : HBlock)
    (h : encodeStructValue v meta = .ok b) :
    (∃ tn fs, v = GoValue.structV tn fs) ∧ b.typ = meta.name := by
  cases v
  case structV tn fs =>
    refine ⟨⟨tn, fs, rfl⟩, ?_⟩
    rw [encodeStructValue] at h
    exact encodeFieldsLoop_typ _ _ _ _ _ h
  all_goals simp [encodeStructValue] at h

theorem blockListElems_none (meta : fieldMeta) :
    ∀ (elems : List GoValue), blockListElems meta elems = .ok none → elems = [] := by
  intro elems h
  cases elems with
  | nil => rfl
  | cons v rest =>
    rw [blockListElems] at h
    rcases hv : encodeStructValue v meta with e | b
    · rw [hv, errBind] at h; exact Except.noConfusion h
    rw [hv, okBind] at h
    rcases hr : blockListElems meta rest with e | bs'
    · rw [hr, errBind] at h; exact Except.noConfusion h
    rw [hr, okBind] at h
    simp at h

theorem blockListElems_props (meta : fieldMeta) :
    ∀ (elems : List GoValue) (bs : List HBlock),
      blockListElems meta elems = .ok (some bs) →
      (∀ b ∈ bs, b.typ = meta.name) ∧
      (∀ v ∈ elems, ∃ tn fs, v = GoValue.structV tn fs) := by
  intro elems
  induction elems with
  | nil =>
    intro bs h
    rw [blockListElems] at h
    simp at h
  | cons v rest ih =>
    intro bs h
    rw [blockListElems] at h
    rcases hv : encodeStructValue v meta with e | b
    · rw [hv, errBind] at h; exact Except.noConfusion h
    rw [hv, okBind] at h
    rcases hr : blockListElems meta rest with e | bs'
    · rw [hr, errBind] at h; exact Except.noConfusion h
    rw [hr, okBind] at h
    simp only [Except.ok.injEq, Option.some.injEq] at h
    subst h
    obtain ⟨hshape, htyp⟩ := encodeStructValue_ok_shape v meta b hv
    constructor
    · intro b' hb'
      rcases List.mem_cons.mp hb' with rfl | hb'
      · exact htyp
      · cases bs' with
        | none => simp at hb'
        | some l => exact (ih l hr).1 b' hb'
    · intro v' hv'
      rcases List.mem_cons.mp hv' with rfl | hv'
      · exact hshape
      · cases bs' with
        | none =>
          rw [blockListElems_none meta rest hr] at hv'
          simp at hv'
        | some l => exact (ih l hr).2 v' hv'

/-- C4: a struct field holding a slice of records encodes in one of exactly
two ways, chosen by the repeated-block flag. Without the flag the field
becomes one attribute whose raw tokens are a single list literal (brackets
around the element tokens, which for record elements are inline object
literals, stated in the last part); with the flag it becomes the collected
sibling blocks, all named after the field and appended in element order. -/
theorem blocksFlag_selects_representation
    (pn fn sn : String) (elems : List GoValue) (ts : List Tok) (bs : List HBlock)
    (hts : tokenizeSliceElems { name := fn } elems.length 0 elems = .ok ts)
    (hbs : blockListElems { name := fn, repeatBlock := true } elems = .ok (some bs)) :
    encodeStruct (.structV pn [({ name := fn }, .sliceV (.structT sn) false elems)]) {} =
      .ok { block := some ⟨"", [], [BodyItem.attrRaw fn
        ([Tok.obrack] ++ ts ++ [Tok.cbrack])]⟩ } ∧
    encodeStruct (.structV pn [({ name := fn, hclTag := ",blocks" },
        .sliceV (.structT sn) false elems)]) {} =
      .ok { block := some ⟨"", [], bs.map blockItem⟩ } ∧
    (∀ b ∈ bs, b.typ = fn) ∧
    (∀ v ∈ elems, ∀ m t, tokenize v m = .ok (some t) →
      ∃ mid, t = [Tok.obrace] ++ mid ++ [Tok.cbrace]) := by
  have htok : tokenize (.sliceV (.structT sn) false elems) { name := fn } =
      .ok (some ([Tok.obrack] ++ ts ++ [Tok.cbrack])) := by
    rw [tokenize, hts, okBind]
  have hfield1 : encodeField (.sliceV (.structT sn) false elems) { name := fn } =
      .ok (some { tokens := some ([Tok.obrack] ++ ts ++ [Tok.cbrack]) }) := by
    simp [encodeField, stripPtrType, typeKind, isBlockElemKind,
      encodePrimitiveList, encodePrimitive, htok, okBind, Except.map]
  have hfield2 : encodeField (.sliceV (.structT sn) false elems)
      { name := fn, repeatBlock := true } =
      .ok (some { blockList := some bs }) := by
    simp [encodeField, stripPtrType, typeKind, isBlockElemKind, hbs, okBind]
  refine ⟨?_, ?_, ?_, ?_⟩
  · rw [encodeStruct, encodeStructValue]
    rw [encodeFieldsLoop]
    simp only [extractFieldMeta_plain, hfield1, okBind]
    rw [encodeFieldsLoop]
    rfl
  · rw [encodeStruct, encodeStructValue]
    rw [encodeFieldsLoop]
    simp only [extractFieldMeta_blocks, hfield2, okBind]
    rw [encodeFieldsLoop]
    rfl
  · intro b hb
    exact (blockListElems_props _ elems bs hbs).1 b hb
  · intro v hv m t htokv
    obtain ⟨tn, fs, rfl⟩ := (blockListElems_props _ elems bs hbs).2 v hv
    rw [tokenize] at htokv
    rcases hin : tokenizeStructFields fs.length 0 fs with e | inner
    · rw [hin, errBind] at htokv; exact Except.noConfusion htokv
    · rw [hin, okBind] at htokv
      simp only [Except.ok.injEq, Option.some.injEq] at htokv
      exact ⟨inner, htokv.symm⟩

/-- C4 witness: a two-element slice of empty records, without and with the
repeated-block flag. -/
theorem blocksFlag_selects_representation_witness :
    encodeStruct (.structV "P" [({ name := "widget" },
        .sliceV (.structT "R") false [.structV "R" [], .structV "R" []])]) {} =
      .ok { block := some ⟨"", [], [BodyItem.attrRaw "widget"
        ([Tok.obrack] ++ [Tok.obrace, Tok.cbrace, Tok.comma, Tok.obrace, Tok.cbrace]
          ++ [Tok.cbrack])]⟩ } ∧
    encodeStruct (.structV "P" [({ name := "widget", hclTag := ",blocks" },
        .sliceV (.structT "R") false [.structV "R" [], .structV "R" []])]) {} =
      .ok { block := some ⟨"", [],
        [blockItem ⟨"widget", [], []⟩, blockItem ⟨"widget", [], []⟩]⟩ } := by
  have h := blocksFlag_selects_representation "P" "widget" "R"
    [.structV "R" [], .structV "R" []]
    [Tok.obrace, Tok.cbrace, Tok.comma, Tok.obrace, Tok.cbrace]
    [⟨"widget", [], []⟩, ⟨"widget", [], []⟩] rfl rfl
  exact ⟨h.1, h.2.1⟩
